import Mathlib

/-
Verification of the mic-analyzer real-time audio engine.

Shallow embedding of src/js/analyzer.js and src/js/audio.js.  Byte samples
delivered by the analyser node are modelled as natural numbers in 0..255;
JavaScript numbers are modelled as rationals where the code performs only
field operations, and as real numbers where it takes square roots and
base-10 logarithms; the JavaScript value -Infinity (produced by
`20*log10(0)` guards and used as the initial noise level) is modelled by
the bottom element of EReal.
-/

namespace MicAnalyzer

/-- js/analyzer.js line 16 and js/config.js: `const FFT_SIZE = 2048`. -/
def FFT_SIZE : Nat := 2048

/-- Web Audio semantics: `analyserNode.frequencyBinCount` is half of
`analyserNode.fftSize`. -/
def frequencyBinCount (fftSize : Nat) : Nat := fftSize / 2

/-- js/analyzer.js line 122: `new Uint8Array(analyserNode.fftSize)` — the
time-domain buffer of the analysis loop. -/
def analyzerTimeDataLen : Nat := FFT_SIZE

/-- js/analyzer.js line 123: `new Uint8Array(analyserNode.frequencyBinCount)` —
the frequency buffer of the analysis loop. -/
def analyzerFreqDataLen : Nat := frequencyBinCount FFT_SIZE

/-- js/audio.js line 149: `timeDomainData = new Uint8Array(analyserNode.frequencyBinCount)`
— the time-domain buffer of the monitoring path (note: frequencyBinCount,
not fftSize). -/
def audioTimeDomainDataLen : Nat := frequencyBinCount FFT_SIZE

/-- js/audio.js line 150: `frequencyData = new Uint8Array(analyserNode.frequencyBinCount)`. -/
def audioFrequencyDataLen : Nat := frequencyBinCount FFT_SIZE

/-- js/analyzer.js line 147: `const valueFloat = (valueByte / 128.0) - 1.0`. -/
def normalizeQ (b : Nat) : ℚ := (b : ℚ) / 128 - 1

/-- The running state of the per-window metrics loop of
js/analyzer.js lines 139-142 (`peakLinear`, `sumSquares`, `sumValues`,
`clipping`). -/
structure LoopAcc where
  peakLinear : ℚ
  sumSquares : ℚ
  sumValues : ℚ
  clipping : Bool
deriving DecidableEq

/-- One iteration of the metrics loop, js/analyzer.js lines 144-157. -/
def loopStep (acc : LoopAcc) (b : Nat) : LoopAcc :=
  let v := normalizeQ b
  { peakLinear := max acc.peakLinear |v|
    sumSquares := acc.sumSquares + v * v
    sumValues := acc.sumValues + v
    clipping := if 254 ≤ b ∨ b ≤ 1 then true else acc.clipping }

/-- The accumulator initialisation of js/analyzer.js lines 139-142. -/
def loopInit : LoopAcc := ⟨0, 0, 0, false⟩

/-- The whole metrics loop over one time-domain window
(js/analyzer.js lines 144-157). -/
def runLoop (w : List Nat) : LoopAcc := w.foldl loopStep loopInit

/-- js/analyzer.js line 159: `rmsLinear = sqrt(sumSquares / length)`. -/
noncomputable def rmsLinear (w : List Nat) : ℝ :=
  Real.sqrt (((runLoop w).sumSquares : ℝ) / (w.length : ℝ))

/-- js/analyzer.js line 160: `dcOffset = sumValues / length`. -/
def dcOffset (w : List Nat) : ℚ := (runLoop w).sumValues / (w.length : ℚ)

/-- js/analyzer.js lines 164-165: `x > 0 ? 20 * Math.log10(x) : -Infinity`. -/
noncomputable def dbfs (x : ℝ) : EReal :=
  if 0 < x then ((20 * Real.logb 10 x : ℝ) : EReal) else ⊥

/-- js/analyzer.js lines 180-184: `isFinite(d) ? d : -100.0` — flooring of a
non-finite decibel value before it enters the surfaced metrics object. -/
noncomputable def surfaceDb (d : EReal) : ℝ :=
  if d = ⊥ ∨ d = ⊤ then -100 else d.toReal

/-- The surfaced `peakVolume` field of the metrics object
(js/analyzer.js line 180). -/
noncomputable def peakVolume (w : List Nat) : ℝ :=
  surfaceDb (dbfs ((runLoop w).peakLinear : ℝ))

/-- The surfaced `rmsVolume` field of the metrics object
(js/analyzer.js line 181). -/
noncomputable def rmsVolume (w : List Nat) : ℝ :=
  surfaceDb (dbfs (rmsLinear w))

/-- The surfaced `clipping` field of the metrics object
(js/analyzer.js line 182). -/
def clippingFlag (w : List Nat) : Bool := (runLoop w).clipping

/-- The pre-floor `rmsDBFS` value of js/analyzer.js line 165, which may be
-Infinity and is the value compared against the silence threshold. -/
noncomputable def rmsDBFS (w : List Nat) : EReal := dbfs (rmsLinear w)

/-- js/analyzer.js line 125: `let lastNoiseLevel = -Infinity`. -/
def noiseInit : EReal := ⊥

/-- One tick of the noise-floor tracker, js/analyzer.js lines 167-173:
`isSilent = rmsDBFS < silenceThreshold` (threshold -50, line 10) and, while
silent, `lastNoiseLevel = Math.max(lastNoiseLevel, rmsDBFS)`. -/
noncomputable def noiseStep (last rms : EReal) : EReal :=
  if rms < ((-50 : ℝ) : EReal) then max last rms else last

/-- Spec formula (spec.md section 4.2 step 2): `peakLinear = max(|v|)` over
the window, written as a plain maximum of the normalized magnitudes. -/
def specPeak (w : List Nat) : ℚ := (w.map fun b => |normalizeQ b|).foldr max 0

/-- Spec formula: the sum of squared normalized amplitudes, so that
`rmsLinear = sqrt(specSumSq / length)` is `sqrt(mean(v^2))`. -/
def specSumSq (w : List Nat) : ℚ := (w.map fun b => normalizeQ b * normalizeQ b).sum

/-- Spec formula: the sum of normalized amplitudes, so that
`dcOffset = specSum / length` is `mean(v)`. -/
def specSum (w : List Nat) : ℚ := (w.map normalizeQ).sum

/-- The four candidate encodings tried by js/audio.js lines 252-263. -/
inductive MimeCandidate where
  | webmOpus
  | oggOpus
  | webm
  | platformDefault
deriving DecidableEq

/-- Codec negotiation of js/audio.js lines 252-265: nested
`MediaRecorder.isTypeSupported` fallbacks ending with `options = {}`
(platform default, attempted without any support query). -/
def negotiate (isTypeSupported : MimeCandidate → Bool) : MimeCandidate :=
  if isTypeSupported .webmOpus then .webmOpus
  else if isTypeSupported .oggOpus then .oggOpus
  else if isTypeSupported .webm then .webm
  else .platformDefault

/-- The ordered preference list of queryable candidates. -/
def preferenceList : List MimeCandidate := [.webmOpus, .oggOpus, .webm]

/-- The support predicate named by the spec:
webm-opus unsupported, ogg-opus supported, webm supported. -/
def exampleSupport : MimeCandidate → Bool
  | .webmOpus => false
  | .oggOpus => true
  | .webm => true
  | .platformDefault => false

/-- The terminal cause used by js/analyzer.js line 291. -/
inductive RecordingError where
  | noDataRecorded
deriving DecidableEq

/-- Outcome of recorder finalization: the `Failed` and `Finished` terminal
states of the recording controller. -/
inductive FinalizeResult where
  | failed (cause : RecordingError)
  | finished (bytes : List Nat) (mimeType : String)
deriving DecidableEq

/-- js/analyzer.js line 299: the blob type fallback `recorder.mimeType || 'audio/webm'`. -/
def defaultMime : String := "audio/webm"

/-- The `onstop` handler of js/analyzer.js lines 285-312: with zero chunks
it reports `NoDataRecorded` and returns without building a blob; otherwise
it concatenates the chunks into a single blob whose type is the recorder
mime type (falling back to `audio/webm`). -/
def finalizeRecording (chunks : List (List Nat)) (mime : Option String) : FinalizeResult :=
  if chunks.length = 0 then .failed .noDataRecorded
  else .finished chunks.flatten (mime.getD defaultMime)

/-- The `ondataavailable` handler of js/analyzer.js lines 276-283 (and
js/audio.js lines 270-275): a chunk is appended only when `data.size > 0`. -/
def onDataAvailable (chunks : List (List Nat)) (data : List Nat) : List (List Nat) :=
  if 0 < data.length then chunks ++ [data] else chunks

/-- The chunk buffer produced by a whole recording, starting from the empty
buffer of js/analyzer.js line 236. -/
def collectChunks (events : List (List Nat)) : List (List Nat) :=
  events.foldl onDataAvailable []

/-- The host animation-frame scheduler: the list of still-pending callback
ids and the next id to hand out (ids are positive, so the JS truthiness
test on a stored id is a null test). -/
structure Scheduler where
  pending : List Nat
  nextId : Nat
deriving DecidableEq

/-- `requestAnimationFrame`: registers one callback, returns its id. -/
def requestFrame (s : Scheduler) : Nat × Scheduler :=
  (s.nextId, ⟨s.pending ++ [s.nextId], s.nextId + 1⟩)

/-- `cancelAnimationFrame(id)`: the scheduled callback with that id will not
run. -/
def cancelFrame (s : Scheduler) (fid : Nat) : Scheduler :=
  ⟨s.pending.filter (fun i => i ≠ fid), s.nextId⟩

/-- The analysis-loop state: the module variable `animationFrameId`
(js/analyzer.js line 13, null when stopped) together with the host
scheduler. -/
structure AnalysisState where
  animationFrameId : Option Nat
  sched : Scheduler
deriving DecidableEq

/-- js/analyzer.js lines 209-217 (`stopAnalysis`): if an animation frame id
is stored, cancel it and null the field; otherwise do nothing. -/
def stopAnalysis (st : AnalysisState) : AnalysisState :=
  match st.animationFrameId with
  | some fid => ⟨none, cancelFrame st.sched fid⟩
  | none => st

/-- How many scheduled callbacks would run at the next scheduling
opportunity.  Each tick of the loop (and hence each metrics or
visualization subscriber invocation) happens inside such a callback. -/
def callbacksAtNextOpportunity (st : AnalysisState) : Nat :=
  st.sched.pending.length

end MicAnalyzer

namespace MicAnalyzer

/-- Claim C6: the emitted clipping flag is true iff some byte of the window
is ≥ 254 or ≤ 1; in particular a window containing 0 or 255 clips, and a
window whose bytes are all strictly between 1 and 254 does not. -/
theorem c6_clipping_iff (w : List Nat) :
    (clippingFlag w = true ↔ ∃ b ∈ w, 254 ≤ b ∨ b ≤ 1)
    ∧ ((0 ∈ w ∨ 255 ∈ w) → clippingFlag w = true)
    ∧ ((∀ b ∈ w, 1 < b ∧ b < 254) → clippingFlag w = false) := by
  have key : ∀ (a : LoopAcc) (l : List Nat),
      (l.foldl loopStep a).clipping = (a.clipping || l.any fun b => decide (254 ≤ b) || decide (b ≤ 1)) := by
    intro a l
    induction l generalizing a with
    | nil => simp
    | cons b t ih =>
        rw [List.foldl_cons, ih]
        by_cases hb : 254 ≤ b ∨ b ≤ 1
        · rcases hb with hb | hb <;>
            simp [loopStep, hb, Bool.or_assoc, Bool.or_comm, Bool.or_left_comm]
        · push_neg at hb
          have h1 : ¬ 254 ≤ b := by omega
          have h2 : ¬ b ≤ 1 := by omega
          simp [loopStep, h1, h2]
  have hiff : clippingFlag w = true ↔ ∃ b ∈ w, 254 ≤ b ∨ b ≤ 1 := by
    rw [clippingFlag, runLoop, key]
    simp [loopInit, List.any_eq_true]
  refine ⟨hiff, ?_, ?_⟩
  · rintro (h | h)
    · exact hiff.mpr ⟨0, h, Or.inr (by omega)⟩
    · exact hiff.mpr ⟨255, h, Or.inl (by omega)⟩
  · intro h
    rcases Bool.eq_false_or_eq_true (clippingFlag w) with ht | hf
    · rcases hiff.mp ht with ⟨b, hbw, hb⟩
      rcases h b hbw with ⟨h1, h2⟩
      omega
    · exact hf

/-- Witness for C6 at the concrete window `[0, 7]`. -/
theorem c6_witness :
    ((0 ∈ ([0, 7] : List Nat) ∨ 255 ∈ ([0, 7] : List Nat))
      ∧ clippingFlag [0, 7] = true) :=
  ⟨Or.inl (by decide), (c6_clipping_iff [0, 7]).2.1 (Or.inl (by decide))⟩

/-- Claim C4: codec negotiation deterministically picks the first supported
candidate of the ordered list webm-opus, ogg-opus, webm, and otherwise
still attempts the platform default; under the support predicate
webm-opus false / ogg-opus true / webm true it selects ogg-opus and never
webm. -/
theorem c4_codec_negotiation :
    (∀ sup : MimeCandidate → Bool,
        negotiate sup = (preferenceList.find? sup).getD .platformDefault)
    ∧ negotiate exampleSupport = .oggOpus
    ∧ negotiate exampleSupport ≠ .webm
    ∧ negotiate (fun _ => false) = .platformDefault := by
  refine ⟨?_, by decide, by decide, by decide⟩
  intro sup
  cases h1 : sup .webmOpus <;> cases h2 : sup .oggOpus <;> cases h3 : sup .webm <;>
    simp [negotiate, preferenceList, List.find?, h1, h2, h3]

/-- Claim C8 counterexample: in the monitoring path (js/audio.js line 149)
the time-domain buffer is allocated with `frequencyBinCount`, so the window
handed to the visualization consumer has 1024 time-domain samples, not the
claimed windowSize = 2048. -/
theorem c8_counterexample :
    audioTimeDomainDataLen = 1024 ∧ audioTimeDomainDataLen ≠ FFT_SIZE := by
  decide

/-- Claim C8 amended: with windowSize = 2048, the analysis loop of
js/analyzer.js hands consumers a 2048-sample time-domain buffer and a
1024-bin frequency buffer, while the js/audio.js monitoring path allocates
both its buffers with frequencyBinCount, so both have length 1024. -/
theorem c8_amended_lengths :
    analyzerTimeDataLen = FFT_SIZE ∧ analyzerTimeDataLen = 2048
    ∧ analyzerFreqDataLen = FFT_SIZE / 2 ∧ analyzerFreqDataLen = 1024
    ∧ audioTimeDomainDataLen = 1024 ∧ audioFrequencyDataLen = 1024 := by
  decide

/-- Claim C5: finalizing with zero collected chunks yields the failure
cause NoDataRecorded and never the finished state; with at least one chunk
the chunks are concatenated into one artifact carrying the recorder mime
type. -/
theorem c5_finalize_zero_chunks :
    (∀ m, finalizeRecording [] m = .failed .noDataRecorded)
    ∧ (∀ m bs mt, finalizeRecording [] m ≠ FinalizeResult.finished bs mt)
    ∧ (∀ (chunks : List (List Nat)) m, chunks ≠ [] →
        finalizeRecording chunks m = .finished chunks.flatten (m.getD defaultMime)) := by
  refine ⟨fun m => by simp [finalizeRecording], fun m bs mt => by simp [finalizeRecording], ?_⟩
  intro chunks m hne
  have hlen : chunks.length ≠ 0 := by
    simpa [List.length_eq_zero] using hne
  simp [finalizeRecording, hlen]

/-- Witness for C5 at one nonempty chunk list. -/
theorem c5_witness :
    ([[1, 2]] : List (List Nat)) ≠ []
    ∧ finalizeRecording [[1, 2]] none = .finished [1, 2] defaultMime := by
  constructor
  · simp
  · have h := c5_finalize_zero_chunks.2.2 [[1, 2]] none (by simp)
    simpa using h

/-- Helper: every chunk the data-available handler ever appends is
nonempty, whatever buffer it starts from. -/
theorem foldl_onDataAvailable_nonempty (events : List (List Nat))
    (acc : List (List Nat)) (hacc : ∀ c ∈ acc, c ≠ []) :
    ∀ c ∈ events.foldl onDataAvailable acc, c ≠ [] := by
  induction events generalizing acc with
  | nil => simpa using hacc
  | cons e t ih =>
      rw [List.foldl_cons]
      refine ih _ ?_
      intro c hc
      by_cases he : 0 < e.length
      · have hmem : c ∈ acc ∨ c = e := by simpa [onDataAvailable, he] using hc
        rcases hmem with h | h
        · exact hacc c h
        · subst h
          exact List.ne_nil_of_length_pos he
      · exact hacc c (by simpa [onDataAvailable, he] using hc)

/-- Claim C10: a data-available event buffers a chunk only when its size is
positive, so every collected chunk is nonempty and every finalization that
reaches the finished state exposes an artifact of positive byte size. -/
theorem c10_nonempty_chunks (events : List (List Nat)) :
    (∀ c ∈ collectChunks events, c ≠ [])
    ∧ (∀ m bs mt,
        finalizeRecording (collectChunks events) m = FinalizeResult.finished bs mt →
          0 < bs.length) := by
  have hall : ∀ c ∈ collectChunks events, c ≠ [] :=
    foldl_onDataAvailable_nonempty events [] (by simp)
  refine ⟨hall, ?_⟩
  intro m bs mt hfin
  rcases hch : collectChunks events with _ | ⟨c, t⟩
  · rw [hch] at hfin
    simp [finalizeRecording] at hfin
  · rw [hch] at hfin
    rw [finalizeRecording, if_neg (by simp)] at hfin
    have hbs : bs = (c :: t).flatten := (FinalizeResult.finished.injEq _ _ _ _).mp hfin |>.1.symm
    have hc0 : c ≠ [] := hall c (by rw [hch]; exact List.mem_cons_self c t)
    have : 0 < c.length := List.length_pos.mpr hc0
    subst hbs
    simp only [List.flatten_cons, List.length_append]
    omega

/-- Witness for C10 at a single one-byte chunk event. -/
theorem c10_witness :
    finalizeRecording (collectChunks [[5]]) none = FinalizeResult.finished [5] defaultMime
    ∧ 0 < ([5] : List Nat).length := by
  have heq : finalizeRecording (collectChunks [[5]]) none
      = FinalizeResult.finished [5] defaultMime := by decide
  exact ⟨heq, (c10_nonempty_chunks [[5]]).2 none [5] defaultMime heq⟩

/-- Claim C7: after stopAnalysis returns, the stored frame id is null and,
when the only pending host callback was the loop tick it had scheduled, no
callback at all fires at the next scheduling opportunity (hence no
metrics or visualization subscriber invocation); stopping an
already-stopped loop is a no-op and stopAnalysis is idempotent. -/
theorem c7_stop_analysis (st : AnalysisState) :
    (st.sched.pending = st.animationFrameId.toList →
        callbacksAtNextOpportunity (stopAnalysis st) = 0)
    ∧ (stopAnalysis st).animationFrameId = none
    ∧ (st.animationFrameId = none → stopAnalysis st = st)
    ∧ stopAnalysis (stopAnalysis st) = stopAnalysis st := by
  obtain ⟨fid, sched⟩ := st
  cases fid with
  | none =>
      refine ⟨?_, rfl, fun _ => rfl, rfl⟩
      intro h
      simp only [Option.toList_none] at h
      simp [stopAnalysis, callbacksAtNextOpportunity, h]
  | some i =>
      refine ⟨?_, rfl, by simp, ?_⟩
      · intro h
        simp only [Option.toList_some] at h
        simp [stopAnalysis, callbacksAtNextOpportunity, cancelFrame, h]
      · simp [stopAnalysis]

/-- Helper: the peak accumulated by the loop is the accumulator's peak
joined with the maximum normalized magnitude of the window. -/
theorem foldl_peakLinear (w : List Nat) (a : LoopAcc) (ha : 0 ≤ a.peakLinear) :
    (w.foldl loopStep a).peakLinear = max a.peakLinear (specPeak w) := by
  induction w generalizing a with
  | nil =>
      simp [specPeak, max_eq_left ha]
  | cons b t ih =>
      rw [List.foldl_cons, ih _ (le_trans ha (le_max_left _ _))]
      have hs : (loopStep a b).peakLinear = max a.peakLinear |normalizeQ b| := rfl
      simp only [specPeak, List.map_cons, List.foldr_cons]
      rw [hs, max_assoc]

/-- Helper: the loop accumulates exactly the sum of squared amplitudes. -/
theorem foldl_sumSquares (w : List Nat) (a : LoopAcc) :
    (w.foldl loopStep a).sumSquares = a.sumSquares + specSumSq w := by
  induction w generalizing a with
  | nil => simp [specSumSq]
  | cons b t ih =>
      rw [List.foldl_cons, ih]
      have hs : (loopStep a b).sumSquares = a.sumSquares + normalizeQ b * normalizeQ b := rfl
      simp only [specSumSq, List.map_cons, List.sum_cons]
      rw [hs, add_assoc]

/-- Helper: the loop accumulates exactly the sum of amplitudes. -/
theorem foldl_sumValues (w : List Nat) (a : LoopAcc) :
    (w.foldl loopStep a).sumValues = a.sumValues + specSum w := by
  induction w generalizing a with
  | nil => simp [specSum]
  | cons b t ih =>
      rw [List.foldl_cons, ih]
      have hs : (loopStep a b).sumValues = a.sumValues + normalizeQ b := rfl
      simp only [specSum, List.map_cons, List.sum_cons]
      rw [hs, add_assoc]

/-- Helper: the spec-side peak is nonnegative. -/
theorem specPeak_nonneg (w : List Nat) : 0 ≤ specPeak w := by
  induction w with
  | nil => simp [specPeak]
  | cons b t ih =>
      rw [specPeak, List.map_cons, List.foldr_cons]
      exact le_trans ih (le_max_right _ _)

/-- Helper: the peak computed by the loop equals the spec-side peak. -/
theorem runLoop_peakLinear (w : List Nat) :
    (runLoop w).peakLinear = specPeak w := by
  rw [runLoop, foldl_peakLinear w loopInit le_rfl]
  exact max_eq_right (specPeak_nonneg w)

/-- Helper: the sum of squares computed by the loop. -/
theorem runLoop_sumSquares (w : List Nat) :
    (runLoop w).sumSquares = specSumSq w := by
  rw [runLoop, foldl_sumSquares]
  simp [loopInit]

/-- Helper: the amplitude sum computed by the loop. -/
theorem runLoop_sumValues (w : List Nat) :
    (runLoop w).sumValues = specSum w := by
  rw [runLoop, foldl_sumValues]
  simp [loopInit]

/-- Helper: the net effect of the dB conversion and the finiteness floor on
a surfaced value. -/
theorem surfaceDb_dbfs (x : ℝ) :
    surfaceDb (dbfs x) = if 0 < x then 20 * Real.logb 10 x else -100 := by
  by_cases h : 0 < x
  · rw [dbfs, if_pos h, surfaceDb,
      if_neg (not_or.mpr ⟨EReal.coe_ne_bot _, EReal.coe_ne_top _⟩), EReal.toReal_coe, if_pos h]
  · rw [dbfs, if_neg h, surfaceDb, if_pos (Or.inl rfl), if_neg h]

/-- Helper: the noise tracker never decreases across any run of ticks. -/
theorem le_foldl_noiseStep (rs : List EReal) (last : EReal) :
    last ≤ rs.foldl noiseStep last := by
  induction rs generalizing last with
  | nil => simp
  | cons r t ih =>
      rw [List.foldl_cons]
      refine le_trans ?_ (ih (noiseStep last r))
      rw [noiseStep]
      split
      · exact le_max_left _ _
      · exact le_rfl

/-- Claim C3: the noise-floor tracker starts at negative infinity, is
updated to max(noiseFloorDb, rmsDb) exactly on ticks whose rmsDb is below
the -50 dB silence threshold, is left unchanged on every other tick, and
is monotonically non-decreasing across any sequence of ticks. -/
theorem c3_noise_floor (last rms : EReal) :
    noiseInit = ⊥
    ∧ (rms < ((-50 : ℝ) : EReal) → noiseStep last rms = max last rms)
    ∧ (¬ rms < ((-50 : ℝ) : EReal) → noiseStep last rms = last)
    ∧ last ≤ noiseStep last rms
    ∧ (∀ rs : List EReal, last ≤ rs.foldl noiseStep last) := by
  refine ⟨rfl, fun h => if_pos h, fun h => if_neg h, ?_, fun rs => le_foldl_noiseStep rs last⟩
  rw [noiseStep]
  split
  · exact le_max_left _ _
  · exact le_rfl

/-- Witness for C3 at a silent tick of -60 dB from the initial tracker. -/
theorem c3_witness :
    ((-60 : ℝ) : EReal) < ((-50 : ℝ) : EReal)
    ∧ noiseStep ⊥ ((-60 : ℝ) : EReal) = max ⊥ ((-60 : ℝ) : EReal)
    ∧ (⊥ : EReal) ≤ noiseStep ⊥ ((-60 : ℝ) : EReal) := by
  have hlt : ((-60 : ℝ) : EReal) < ((-50 : ℝ) : EReal) :=
    EReal.coe_lt_coe_iff.mpr (by norm_num)
  have h := c3_noise_floor ⊥ ((-60 : ℝ) : EReal)
  exact ⟨hlt, h.2.1 hlt, h.2.2.2.1⟩

/-- Helper: a window of mid-scale bytes leaves the loop accumulator at its
initial value. -/
theorem runLoop_all_mid (w : List Nat) (h : ∀ b ∈ w, b = 128) :
    runLoop w = loopInit := by
  rw [runLoop]
  induction w with
  | nil => rfl
  | cons b t ih =>
      have hb : b = 128 := h b (List.mem_cons_self b t)
      subst hb
      rw [List.foldl_cons]
      have hv : normalizeQ 128 = 0 := by norm_num [normalizeQ]
      have hs : loopStep loopInit 128 = loopInit := by
        simp [loopStep, loopInit, hv]
      rw [hs]
      exact ih fun b hb => h b (List.mem_cons_of_mem _ hb)

/-- Claim C2 counterexample: a window whose bytes are all literally zero is
full-scale negative amplitude, not digital silence — the code reports
clipping, a dc offset of -1 and a peak of 0 dBFS, contradicting the
claimed floor/false/zero snapshot. -/
theorem c2_counterexample :
    clippingFlag [0] = true
    ∧ dcOffset [0] = -1
    ∧ peakVolume [0] = 0 := by
  have hv : normalizeQ 0 = -1 := by norm_num [normalizeQ]
  have habs : |(-1 : ℚ)| = 1 := by norm_num
  have hmax : max (0 : ℚ) 1 = 1 := max_eq_right (by norm_num)
  have hstep : runLoop [0] = ⟨1, 1, -1, true⟩ := by
    rw [runLoop, List.foldl_cons, List.foldl_nil]
    simp [loopStep, loopInit, hv, habs, hmax]
  refine ⟨?_, ?_, ?_⟩
  · rw [clippingFlag, hstep]
  · rw [dcOffset, hstep]
    norm_num
  · rw [peakVolume, hstep]
    rw [show (((1 : ℚ) : ℝ)) = 1 by norm_num]
    rw [surfaceDb_dbfs]
    simp [Real.logb_one]

/-- Claim C2 amended: for every window of mid-scale bytes (value 128, i.e.
zero normalized amplitude — the code's representation of digital silence),
the snapshot has peak and rms floored to -100 dB, no clipping and zero dc
offset, with no -Infinity or NaN surfaced. -/
theorem c2_amended_silence (w : List Nat) (h : ∀ b ∈ w, b = 128) :
    peakVolume w = -100
    ∧ rmsVolume w = -100
    ∧ clippingFlag w = false
    ∧ dcOffset w = 0 := by
  have hrl : runLoop w = loopInit := runLoop_all_mid w h
  refine ⟨?_, ?_, ?_, ?_⟩
  · rw [peakVolume, hrl]
    have : ((loopInit.peakLinear : ℚ) : ℝ) = 0 := by norm_num [loopInit]
    rw [this, surfaceDb_dbfs]
    norm_num
  · rw [rmsVolume, rmsLinear, hrl]
    have : ((loopInit.sumSquares : ℚ) : ℝ) = 0 := by norm_num [loopInit]
    rw [this, zero_div, Real.sqrt_zero, surfaceDb_dbfs]
    norm_num
  · rw [clippingFlag, hrl]
    rfl
  · rw [dcOffset, hrl]
    simp [loopInit]

/-- Claim C1: the per-tick metrics computation realises the spec formulas:
peak is max(|v|) with v = b/128 - 1, rms is sqrt(mean(v^2)), dcOffset is
mean(v), and the surfaced decibel value of a linear amplitude x is
20*log10(x) when x is positive and the -100 dB floor otherwise (every
non-finite intermediate being floored before surfacing). -/
theorem c1_metrics_formulas (w : List Nat) (_h : ∀ b ∈ w, b ≤ 255) :
    peakVolume w = surfaceDb (dbfs ((specPeak w : ℚ) : ℝ))
    ∧ rmsVolume w = surfaceDb (dbfs (Real.sqrt (((specSumSq w : ℚ) : ℝ) / (w.length : ℝ))))
    ∧ dcOffset w = specSum w / (w.length : ℚ)
    ∧ (∀ x : ℝ, surfaceDb (dbfs x) = if 0 < x then 20 * Real.logb 10 x else -100) := by
  refine ⟨?_, ?_, ?_, surfaceDb_dbfs⟩
  · rw [peakVolume, runLoop_peakLinear]
  · rw [rmsVolume, rmsLinear, runLoop_sumSquares]
  · rw [dcOffset, runLoop_sumValues]

/-- Witness for C1 at the window `[128]`. -/
theorem c1_witness :
    (∀ b ∈ ([128] : List Nat), b ≤ 255)
    ∧ (peakVolume [128] = surfaceDb (dbfs ((specPeak [128] : ℚ) : ℝ))
        ∧ rmsVolume [128]
            = surfaceDb (dbfs (Real.sqrt (((specSumSq [128] : ℚ) : ℝ)
                / ((([128] : List Nat).length : ℕ) : ℝ))))
        ∧ dcOffset [128] = specSum [128] / ((([128] : List Nat).length : ℕ) : ℚ)
        ∧ (∀ x : ℝ, surfaceDb (dbfs x) = if 0 < x then 20 * Real.logb 10 x else -100)) :=
  ⟨by decide, c1_metrics_formulas [128] (by decide)⟩

/-- Helper: unfolding the spec peak on a cons cell. -/
theorem specPeak_cons (c : Nat) (t : List Nat) :
    specPeak (c :: t) = max |normalizeQ c| (specPeak t) := rfl

/-- Helper: every normalized magnitude of the window is below the spec
peak. -/
theorem mem_le_specPeak (w : List Nat) :
    ∀ b ∈ w, |normalizeQ b| ≤ specPeak w := by
  induction w with
  | nil => intro b hb; cases hb
  | cons c t ih =>
      intro b hb
      rw [specPeak_cons]
      rcases List.mem_cons.mp hb with h | h
      · subst h
        exact le_max_left _ _
      · exact le_trans (ih b h) (le_max_right _ _)

/-- Helper: for bytes below 256 the normalized magnitudes, hence their
maximum, stay below full scale. -/
theorem specPeak_le_one (w : List Nat) (h : ∀ b ∈ w, b ≤ 255) :
    specPeak w ≤ 1 := by
  induction w with
  | nil => norm_num [specPeak]
  | cons c t ih =>
      rw [specPeak_cons]
      refine max_le ?_ (ih fun b hb => h b (List.mem_cons_of_mem _ hb))
      have hc : (c : ℚ) ≤ 256 := by
        have h255 := h c (List.mem_cons_self c t)
        have : (c : ℚ) ≤ 255 := by exact_mod_cast h255
        linarith
      have hc0 : (0 : ℚ) ≤ (c : ℚ) := Nat.cast_nonneg c
      rw [normalizeQ, abs_le]
      exact ⟨by linarith, by linarith⟩

/-- Helper: the sum of squared amplitudes is bounded by the window length
times the squared peak. -/
theorem specSumSq_le (w : List Nat) :
    specSumSq w ≤ (w.length : ℚ) * specPeak w ^ 2 := by
  induction w with
  | nil => norm_num [specSumSq, specPeak]
  | cons c t ih =>
      have hle : specPeak t ≤ specPeak (c :: t) := by
        rw [specPeak_cons]
        exact le_max_right _ _
      have habs : |normalizeQ c| ≤ specPeak (c :: t) :=
        mem_le_specPeak _ c (List.mem_cons_self c t)
      have h0t : 0 ≤ specPeak t := specPeak_nonneg t
      have hsq : specPeak t ^ 2 ≤ specPeak (c :: t) ^ 2 :=
        pow_le_pow_left₀ h0t hle 2
      have hcsq : normalizeQ c * normalizeQ c ≤ specPeak (c :: t) ^ 2 := by
        have h1 : normalizeQ c * normalizeQ c = |normalizeQ c| ^ 2 := by
          rw [sq_abs]
          ring
        rw [h1]
        exact pow_le_pow_left₀ (abs_nonneg _) habs 2
      have hsum : specSumSq (c :: t) = normalizeQ c * normalizeQ c + specSumSq t := rfl
      have hlen : ((c :: t).length : ℚ) = (t.length : ℚ) + 1 := by
        push_cast [List.length_cons]
        ring
      have hlen0 : (0 : ℚ) ≤ (t.length : ℚ) := Nat.cast_nonneg _
      have ht2 : specSumSq t ≤ (t.length : ℚ) * specPeak (c :: t) ^ 2 :=
        le_trans ih (mul_le_mul_of_nonneg_left hsq hlen0)
      rw [hsum, hlen]
      nlinarith [ht2, hcsq]

/-- Helper: a normalized magnitude is either exactly zero (byte 128) or at
least one quantization step 1/128 away from zero. -/
theorem normalizeQ_abs_cases (b : Nat) :
    |normalizeQ b| = 0 ∨ 1 / 128 ≤ |normalizeQ b| := by
  by_cases hb : b = 128
  · subst hb
    left
    norm_num [normalizeQ]
  · right
    have h1 : (1 : ℚ) ≤ |(b : ℚ) - 128| := by
      rcases Nat.lt_or_ge b 128 with h | h

      · have hble : b ≤ 127 := by omega
        have hq : (b : ℚ) ≤ 127 := by exact_mod_cast hble
        rw [abs_sub_comm, abs_of_nonneg (by linarith)]
        linarith
      · have hb9 : 129 ≤ b := by omega
        have hq : (129 : ℚ) ≤ (b : ℚ) := by exact_mod_cast hb9
        rw [abs_of_nonneg (by linarith)]
        linarith
    have h2 : normalizeQ b = ((b : ℚ) - 128) / 128 := by
      rw [normalizeQ]
      ring
    rw [h2, abs_div, abs_of_pos (by norm_num : (0 : ℚ) < 128)]
    linarith

/-- Helper: the spec peak is zero or at least one quantization step. -/
theorem specPeak_quantized (w : List Nat) :
    specPeak w = 0 ∨ 1 / 128 ≤ specPeak w := by
  induction w with
  | nil => left; rfl
  | cons c t ih =>
      rw [specPeak_cons]
      rcases normalizeQ_abs_cases c with hc | hc
      · rcases ih with ht | ht
        · left
          rw [hc, ht]
          simp
        · right
          exact le_trans ht (le_max_right _ _)
      · right
        exact le_trans hc (le_max_left _ _)

/-- Claim C9: for every window of bytes in 0..255, the surfaced metrics
satisfy rmsVolume ≤ peakVolume ≤ 0 dBFS, the -100 dB flooring of
non-finite values preserving both inequalities. -/
theorem c9_volume_ordering (w : List Nat) (h : ∀ b ∈ w, b ≤ 255) :
    rmsVolume w ≤ peakVolume w ∧ peakVolume w ≤ 0 := by
  have hPk : (runLoop w).peakLinear = specPeak w := runLoop_peakLinear w
  have hP0 : (0 : ℚ) ≤ specPeak w := specPeak_nonneg w
  have hP1 : specPeak w ≤ 1 := specPeak_le_one w h
  have hP0R : (0 : ℝ) ≤ ((specPeak w : ℚ) : ℝ) := by exact_mod_cast hP0
  have hP1R : ((specPeak w : ℚ) : ℝ) ≤ 1 := by exact_mod_cast hP1
  have hSle : ((runLoop w).sumSquares : ℝ) / (w.length : ℝ) ≤ ((specPeak w : ℚ) : ℝ) ^ 2 := by
    rw [runLoop_sumSquares]
    rcases Nat.eq_zero_or_pos w.length with h0 | hpos
    · have hnil : w = [] := List.length_eq_zero.mp h0
      subst hnil
      simp only [specSumSq, List.map_nil, List.sum_nil, Rat.cast_zero, List.length_nil,
        Nat.cast_zero, div_zero]
      positivity
    · have hq : specSumSq w ≤ (w.length : ℚ) * specPeak w ^ 2 := specSumSq_le w
      have hqR : ((specSumSq w : ℚ) : ℝ)
          ≤ (((w.length : ℚ) * specPeak w ^ 2 : ℚ) : ℝ) := by exact_mod_cast hq
      push_cast at hqR
      have hnR : (0 : ℝ) < (w.length : ℝ) := by exact_mod_cast hpos
      rw [div_le_iff₀ hnR]
      nlinarith [hqR]
  have hrms_le : rmsLinear w ≤ ((specPeak w : ℚ) : ℝ) := by
    rw [rmsLinear]
    calc Real.sqrt (((runLoop w).sumSquares : ℝ) / (w.length : ℝ))
        ≤ Real.sqrt (((specPeak w : ℚ) : ℝ) ^ 2) := Real.sqrt_le_sqrt hSle
      _ = ((specPeak w : ℚ) : ℝ) := Real.sqrt_sq hP0R
  have hrms0 : 0 ≤ rmsLinear w := Real.sqrt_nonneg _
  have hlog128 : Real.logb 10 128 ≤ 5 := by
    have h5 : Real.logb 10 ((10 : ℝ) ^ (5 : ℕ)) = 5 := by
      rw [Real.logb_pow, Real.logb_self_eq_one (by norm_num)]
      norm_num
    have hmono : Real.logb 10 128 ≤ Real.logb 10 ((10 : ℝ) ^ (5 : ℕ)) :=
      Real.logb_le_logb_of_le (by norm_num) (by norm_num) (by norm_num)
    rw [h5] at hmono
    exact hmono
  have hfloor : ∀ y : ℝ, 1 / 128 ≤ y → (-100 : ℝ) ≤ 20 * Real.logb 10 y := by
    intro y hy
    have h1 : Real.logb 10 (1 / 128) ≤ Real.logb 10 y :=
      Real.logb_le_logb_of_le (by norm_num) (by norm_num) hy
    have h2 : Real.logb 10 ((128 : ℝ)⁻¹) = -Real.logb 10 128 := Real.logb_inv 128
    have h3 : ((1 : ℝ) / 128) = (128 : ℝ)⁻¹ := by norm_num
    rw [h3, h2] at h1
    linarith
  have hpeakval : peakVolume w = surfaceDb (dbfs ((specPeak w : ℚ) : ℝ)) := by
    rw [peakVolume, hPk]
  constructor
  · by_cases hr : 0 < rmsLinear w
    · have hPpos : (0 : ℝ) < ((specPeak w : ℚ) : ℝ) := lt_of_lt_of_le hr hrms_le
      rw [rmsVolume, hpeakval, surfaceDb_dbfs, surfaceDb_dbfs, if_pos hr, if_pos hPpos]
      have hmono := Real.logb_le_logb_of_le (x := rmsLinear w)
        (by norm_num : (1 : ℝ) < 10) hr hrms_le
      linarith
    · have hr0 : rmsLinear w = 0 := le_antisymm (not_lt.mp hr) hrms0
      rw [rmsVolume, hpeakval, surfaceDb_dbfs, surfaceDb_dbfs, hr0,
        if_neg (lt_irrefl (0 : ℝ))]
      rcases specPeak_quantized w with hq | hq
      · rw [hq]
        norm_num
      · have h128q : (((1 : ℚ) / 128 : ℚ) : ℝ) ≤ ((specPeak w : ℚ) : ℝ) :=
          Rat.cast_le.mpr hq
        have h128 : ((1 : ℝ) / 128) ≤ ((specPeak w : ℚ) : ℝ) := by
          push_cast at h128q
          exact h128q
        have hp : (0 : ℝ) < ((specPeak w : ℚ) : ℝ) :=
          lt_of_lt_of_le (by norm_num) h128
        rw [if_pos hp]
        exact hfloor _ h128
  · rw [hpeakval, surfaceDb_dbfs]
    by_cases hp : (0 : ℝ) < ((specPeak w : ℚ) : ℝ)
    · rw [if_pos hp]
      have hlp := Real.logb_nonpos (by norm_num : (1 : ℝ) < 10) (le_of_lt hp) hP1R
      linarith
    · rw [if_neg hp]
      norm_num

/-- Witness for C9 at the window `[200]`. -/
theorem c9_witness :
    (∀ b ∈ ([200] : List Nat), b ≤ 255)
    ∧ rmsVolume [200] ≤ peakVolume [200] ∧ peakVolume [200] ≤ 0 :=
  ⟨by decide, c9_volume_ordering [200] (by decide)⟩

/-- Witness for C2's amended statement at the window `[128, 128]`. -/
theorem c2_witness :
    (∀ b ∈ ([128, 128] : List Nat), b = 128)
    ∧ (peakVolume [128, 128] = -100
        ∧ rmsVolume [128, 128] = -100
        ∧ clippingFlag [128, 128] = false
        ∧ dcOffset [128, 128] = 0) :=
  ⟨by decide, c2_amended_silence [128, 128] (by decide)⟩

/-- Witness for C7 at a running loop whose tick is scheduled under id 1. -/
theorem c7_witness :
    ((⟨some 1, ⟨[1], 2⟩⟩ : AnalysisState).sched.pending
        = (⟨some 1, ⟨[1], 2⟩⟩ : AnalysisState).animationFrameId.toList)
    ∧ callbacksAtNextOpportunity (stopAnalysis ⟨some 1, ⟨[1], 2⟩⟩) = 0
    ∧ (stopAnalysis ⟨some 1, ⟨[1], 2⟩⟩).animationFrameId = none :=
  ⟨rfl, (c7_stop_analysis ⟨some 1, ⟨[1], 2⟩⟩).1 rfl,
    (c7_stop_analysis ⟨some 1, ⟨[1], 2⟩⟩).2.1⟩

end MicAnalyzer
